import Mathlib

/-!
Verification of the in-memory inventory tracker (`src/Inventory.py`).

The `Product` dataclass becomes a structure together with a fallible
constructor `mkProduct` mirroring `Product.__post_init__`; prices and raw
numeric inputs are modelled as rationals, the stored quantity as an integer
obtained by Python's `int()` truncation toward zero.  The manager's private
dictionary is an association list from names to products with Python-dict
semantics: updating an existing key replaces its value in place, a new key
is appended at the end.
-/

namespace Inventory

/-- The single error kind raised by `Product.__post_init__`.
`emptyName` models `ValueError("Product name cannot be empty.")`;
`negativeValue` models `ValueError("Price and quantity must be non-negative.")`. -/
inductive ValidationError where
  | emptyName
  | negativeValue
deriving DecidableEq

/-- Python's `int()` on a rational: truncation toward zero. -/
def ratTrunc (q : ℚ) : ℤ := if q < 0 then -Rat.floor (-q) else Rat.floor q

/-- The `Product` dataclass: after `__post_init__`, `price` is a float
(modelled as a rational) and `quantity` an integer. -/
structure Product where
  name : String
  price : ℚ
  quantity : ℤ
deriving DecidableEq

/-- `Product(name, price, quantity)` including `__post_init__`:
validation on the raw inputs, then the coercions
`self.price = float(self.price)` (identity in the rational model) and
`self.quantity = int(self.quantity)` (truncation toward zero). -/
def mkProduct (name : String) (price quantity : ℚ) : Except ValidationError Product :=
  if name = "" then .error .emptyName
  else if price < 0 ∨ quantity < 0 then .error .negativeValue
  else .ok { name := name, price := price, quantity := ratTrunc quantity }

/-- `Product.calculate_value`: `self.price * self.quantity`. -/
def calculate_value (p : Product) : ℚ := p.price * (p.quantity : ℚ)

/-- The manager's private dictionary `self._inventory : dict[str, Product]`,
as an association list in insertion order. -/
abbrev Inv := List (String × Product)

/-- `InventoryManager.__init__`: the inventory starts empty. -/
def emptyInventory : Inv := []

/-- Python-dict assignment `d[k] = v`: replace in place when the key is
present, otherwise append at the end. -/
def dictInsert (k : String) (v : Product) (m : Inv) : Inv :=
  if m.any (fun kv => decide (kv.1 = k)) then
    m.map (fun kv => if kv.1 = k then (k, v) else kv)
  else
    m ++ [(k, v)]

/-- Python-dict lookup `d.get(k)`: the value at the first matching key. -/
def dictGet (k : String) : Inv → Option Product
  | [] => none
  | kv :: rest => if kv.1 = k then some kv.2 else dictGet k rest

/-- `InventoryManager.add_or_update_product`:
`self._inventory[product.name] = product`. -/
def add_or_update_product (m : Inv) (p : Product) : Inv :=
  dictInsert p.name p m

/-- `InventoryManager.get_product`: `self._inventory.get(product_name)`. -/
def get_product (m : Inv) (product_name : String) : Option Product :=
  dictGet product_name m

/-- `InventoryManager.calculate_total_inventory_value`: the loop
`total_value = 0.0; for product in self._inventory.values(): total_value += product.calculate_value()`. -/
def calculate_total_inventory_value (m : Inv) : ℚ :=
  (m.map Prod.snd).foldl (fun acc p => acc + calculate_value p) 0

/-- One row of the display dataframe:
`{"Product Name": ..., "Price": ..., "Quantity": ..., "Stock Value": ...}`. -/
structure Row where
  product_name : String
  price : ℚ
  quantity : ℤ
  stock_value : ℚ
deriving DecidableEq

/-- The row built for a product inside `get_inventory_dataframe`. -/
def toRow (p : Product) : Row :=
  { product_name := p.name, price := p.price, quantity := p.quantity
    stock_value := calculate_value p }

/-- Row comparison used by `df.sort_values(by="Product Name")`. -/
def rowLE (a b : Row) : Prop := a.product_name ≤ b.product_name

instance : DecidableRel rowLE :=
  fun a b => inferInstanceAs (Decidable (a.product_name ≤ b.product_name))

instance : IsTotal Row rowLE :=
  ⟨fun a b => le_total a.product_name b.product_name⟩

instance : IsTrans Row rowLE :=
  ⟨fun _ _ _ hab hbc => le_trans hab hbc⟩

/-- `InventoryManager.get_inventory_dataframe`: one row per stored product
(in dictionary order), then `sort_values(by="Product Name")`.  The empty
branch returns an empty dataframe, which sorting the empty row list also
yields. -/
def get_inventory_dataframe (m : Inv) : List Row :=
  List.insertionSort rowLE ((m.map Prod.snd).map toRow)

/-- `get_product` as an explicit state transformer: the method reads the
dictionary and returns it untouched. -/
def get_product_run (m : Inv) (product_name : String) : Option Product × Inv :=
  (dictGet product_name m, m)

/-- `calculate_total_inventory_value` as an explicit state transformer. -/
def calculate_total_inventory_value_run (m : Inv) : ℚ × Inv :=
  ((m.map Prod.snd).foldl (fun acc p => acc + calculate_value p) 0, m)

/-- `get_inventory_dataframe` as an explicit state transformer. -/
def get_inventory_dataframe_run (m : Inv) : List Row × Inv :=
  (List.insertionSort rowLE ((m.map Prod.snd).map toRow), m)

/-- The submission handler (lines 120-134): with an empty name only an
error message is shown; otherwise the product is constructed and, when
validation succeeds, upserted; a `ValueError` is caught and shown.  The
boolean records whether a success message was displayed. -/
def handle_submission (m : Inv) (name : String) (price quantity : ℚ) : Inv × Bool :=
  if name = "" then (m, false)
  else
    match mkProduct name price quantity with
    | .ok p => (add_or_update_product m p, true)
    | .error _ => (m, false)

/-- The record invariant from the spec: name non-empty, price ≥ 0,
quantity ≥ 0. -/
def ValidProduct (p : Product) : Prop :=
  p.name ≠ "" ∧ 0 ≤ p.price ∧ 0 ≤ p.quantity

/-- Keys are pairwise distinct. -/
def NoDupKeys (m : Inv) : Prop := (m.map Prod.fst).Nodup

/-- Number of entries stored under a given name. -/
def countKey (k : String) (m : Inv) : ℕ :=
  (m.map Prod.fst).count k

/-- States reachable from the empty inventory by upserting products that
came out of successful construction. -/
inductive Reachable : Inv → Prop where
  | empty : Reachable emptyInventory
  | step {m : Inv} {p : Product} (n : String) (pr q : ℚ) :
      Reachable m → mkProduct n pr q = .ok p → Reachable (add_or_update_product m p)

instance (m : Inv) : Decidable (NoDupKeys m) := by
  unfold NoDupKeys; infer_instance

instance (p : Product) : Decidable (ValidProduct p) := by
  unfold ValidProduct; infer_instance

/-! ### Supporting lemmas -/

theorem ratTrunc_of_nonneg {q : ℚ} (h : 0 ≤ q) : ratTrunc q = ⌊q⌋ := by
  show (if q < 0 then -Rat.floor (-q) else Rat.floor q) = ⌊q⌋
  rw [if_neg (not_lt.mpr h)]
  rfl

theorem ratTrunc_nonneg {q : ℚ} (h : 0 ≤ q) : 0 ≤ ratTrunc q := by
  rw [ratTrunc_of_nonneg h]
  exact Int.floor_nonneg.mpr h

theorem ratTrunc_intCast (n : ℤ) : ratTrunc (n : ℚ) = n := by
  rcases le_or_lt 0 (n : ℚ) with h | h
  · rw [ratTrunc_of_nonneg h, Int.floor_intCast]
  · show (if (n : ℚ) < 0 then -Rat.floor (-(n : ℚ)) else Rat.floor (n : ℚ)) = n
    rw [if_pos h]
    have hcast : (-(n : ℚ)) = ((-n : ℤ) : ℚ) := by push_cast; ring
    rw [hcast]
    show -⌊((-n : ℤ) : ℚ)⌋ = n
    rw [Int.floor_intCast]
    ring

/-- Inversion for successful construction. -/
theorem mkProduct_ok_inv {n : String} {pr q : ℚ} {p : Product}
    (h : mkProduct n pr q = .ok p) :
    p.name = n ∧ p.price = pr ∧ p.quantity = ratTrunc q ∧ n ≠ "" ∧ 0 ≤ pr ∧ 0 ≤ q := by
  unfold mkProduct at h
  by_cases h1 : n = ""
  · rw [if_pos h1] at h
    exact absurd h (by simp)
  · rw [if_neg h1] at h
    by_cases h2 : pr < 0 ∨ q < 0
    · rw [if_pos h2] at h
      exact absurd h (by simp)
    · rw [if_neg h2] at h
      push_neg at h2
      cases h
      exact ⟨rfl, rfl, rfl, h1, h2.1, h2.2⟩

/-- A successfully constructed product satisfies the record invariant. -/
theorem mkProduct_valid {n : String} {pr q : ℚ} {p : Product}
    (h : mkProduct n pr q = .ok p) : ValidProduct p := by
  obtain ⟨hn, hpr, hq, hne, hpr0, hq0⟩ := mkProduct_ok_inv h
  refine ⟨hn ▸ hne, hpr ▸ hpr0, hq ▸ ratTrunc_nonneg hq0⟩

/-- Keys of the dictionary after an update: unchanged when the key was
present, extended by the key otherwise. -/
theorem keys_dictInsert (k : String) (v : Product) (m : Inv) :
    (dictInsert k v m).map Prod.fst =
      if m.any (fun kv => decide (kv.1 = k)) then m.map Prod.fst
      else m.map Prod.fst ++ [k] := by
  unfold dictInsert
  by_cases h : m.any (fun kv => decide (kv.1 = k)) = true
  · rw [if_pos h, if_pos h, List.map_map]
    refine List.map_congr_left (fun kv _ => ?_)
    by_cases hk : kv.1 = k
    · simp [hk]
    · simp [hk]
  · rw [if_neg h, if_neg h]
    simp

theorem hasKey_dictInsert (k : String) (v : Product) (m : Inv) :
    (dictInsert k v m).any (fun kv => decide (kv.1 = k)) = true := by
  unfold dictInsert
  by_cases h : m.any (fun kv => decide (kv.1 = k)) = true
  · rw [if_pos h]
    rw [List.any_eq_true] at h ⊢
    obtain ⟨kv, hmem, hk⟩ := h
    rw [decide_eq_true_eq] at hk
    exact ⟨(k, v), List.mem_map.mpr ⟨kv, hmem, by simp [hk]⟩, by simp⟩
  · rw [if_neg h]
    rw [List.any_eq_true]
    exact ⟨(k, v), by simp⟩

theorem length_dictInsert_of_hasKey {k : String} {m : Inv} (v : Product)
    (h : m.any (fun kv => decide (kv.1 = k)) = true) :
    (dictInsert k v m).length = m.length := by
  unfold dictInsert
  rw [if_pos h, List.length_map]

theorem dictGet_dictInsert_self (k : String) (v : Product) (m : Inv) :
    dictGet k (dictInsert k v m) = some v := by
  unfold dictInsert
  by_cases h : m.any (fun kv => decide (kv.1 = k)) = true
  · rw [if_pos h]
    rw [List.any_eq_true] at h
    induction m with
    | nil => simp at h
    | cons kv rest ih =>
      by_cases hk : kv.1 = k
      · simp [dictGet, hk]
      · rw [List.map_cons, if_neg hk, dictGet, if_neg hk]
        refine ih ?_
        rcases h with ⟨kv', hmem, hk'⟩
        rw [decide_eq_true_eq] at hk'
        rcases List.mem_cons.mp hmem with heq | hmem'
        · exact absurd (heq ▸ hk') hk
        · exact ⟨kv', hmem', by simpa using hk'⟩
  · rw [if_neg h]
    simp only [Bool.not_eq_true, List.any_eq_false, decide_eq_true_eq] at h
    induction m with
    | nil => simp [dictGet]
    | cons kv rest ih =>
      have hk : ¬kv.1 = k := h kv (List.mem_cons_self kv rest)
      rw [List.cons_append, dictGet, if_neg hk]
      exact ih (fun kv' hmem => h kv' (List.mem_cons_of_mem kv hmem))

theorem dictGet_eq_none_of_not_mem {k : String} {m : Inv}
    (h : ∀ kv ∈ m, kv.1 ≠ k) : dictGet k m = none := by
  induction m with
  | nil => rfl
  | cons kv rest ih =>
    rw [dictGet, if_neg (h kv (List.mem_cons_self kv rest))]
    exact ih (fun kv' hmem => h kv' (List.mem_cons_of_mem kv hmem))

theorem mem_dictInsert {kv' : String × Product} {k : String} {v : Product} {m : Inv}
    (h : kv' ∈ dictInsert k v m) : kv' = (k, v) ∨ kv' ∈ m := by
  unfold dictInsert at h
  by_cases hc : m.any (fun kv => decide (kv.1 = k)) = true
  · rw [if_pos hc] at h
    obtain ⟨kv, hmem, heq⟩ := List.mem_map.mp h
    by_cases hk : kv.1 = k
    · rw [if_pos hk] at heq
      exact Or.inl heq.symm
    · rw [if_neg hk] at heq
      exact Or.inr (heq ▸ hmem)
  · rw [if_neg hc] at h
    rcases List.mem_append.mp h with hmem | hmem
    · exact Or.inr hmem
    · exact Or.inl (List.mem_singleton.mp hmem)

theorem noDupKeys_dictInsert {m : Inv} (k : String) (v : Product)
    (h : NoDupKeys m) : NoDupKeys (dictInsert k v m) := by
  unfold NoDupKeys at h ⊢
  rw [keys_dictInsert]
  by_cases hc : m.any (fun kv => decide (kv.1 = k)) = true
  · rw [if_pos hc]; exact h
  · rw [if_neg hc]
    simp only [Bool.not_eq_true, List.any_eq_false, decide_eq_true_eq] at hc
    refine List.Nodup.append h (List.nodup_singleton k) ?_
    intro a ha hb
    rw [List.mem_singleton] at hb
    obtain ⟨kv, hmem, hk⟩ := List.mem_map.mp ha
    exact hc kv hmem (hk.trans hb)

theorem countKey_dictInsert {m : Inv} (k : String) (v : Product)
    (h : NoDupKeys m) : countKey k (dictInsert k v m) = 1 := by
  unfold countKey
  rw [keys_dictInsert]
  by_cases hc : m.any (fun kv => decide (kv.1 = k)) = true
  · rw [if_pos hc]
    rw [List.any_eq_true] at hc
    obtain ⟨kv, hmem, hk⟩ := hc
    rw [decide_eq_true_eq] at hk
    exact List.count_eq_one_of_mem h (List.mem_map.mpr ⟨kv, hmem, hk⟩)
  · rw [if_neg hc]
    simp only [Bool.not_eq_true, List.any_eq_false, decide_eq_true_eq] at hc
    rw [List.count_append]
    have hzero : (m.map Prod.fst).count k = 0 := by
      rw [List.count_eq_zero]
      intro hmem
      obtain ⟨kv, hm, hk⟩ := List.mem_map.mp hmem
      exact hc kv hm hk
    rw [hzero]
    simp

theorem foldl_add_calculate_value (l : List Product) (acc : ℚ) :
    l.foldl (fun a p => a + calculate_value p) acc = acc + (l.map calculate_value).sum := by
  induction l generalizing acc with
  | nil => simp
  | cons p rest ih => rw [List.foldl_cons, ih, List.map_cons, List.sum_cons]; ring

/-! ### Claims -/

/-- C1: every input with empty name, or negative price, or negative raw
quantity makes `Product` construction fail with a `ValidationError`; in
particular no such input yields a constructed record. -/
theorem claim1_invalid_construction_fails (name : String) (price quantity : ℚ)
    (h : name = "" ∨ price < 0 ∨ quantity < 0) :
    ∃ e : ValidationError, mkProduct name price quantity = .error e := by
  unfold mkProduct
  by_cases h1 : name = ""
  · exact ⟨.emptyName, by rw [if_pos h1]⟩
  · have h2 : price < 0 ∨ quantity < 0 := by
      rcases h with h | h
      · exact absurd h h1
      · exact h
    exact ⟨.negativeValue, by rw [if_neg h1, if_pos h2]⟩

theorem claim1_witness :
    ("" = "" ∨ (1 : ℚ) < 0 ∨ (1 : ℚ) < 0) ∧
    ∃ e : ValidationError, mkProduct "" 1 1 = .error e :=
  ⟨Or.inl rfl, claim1_invalid_construction_fails "" 1 1 (Or.inl rfl)⟩

/-- C2: for every non-empty name, price ≥ 0 and integer quantity ≥ 0,
construction succeeds with exactly those fields and `calculate_value`
returns price × quantity. -/
theorem claim2_valid_construction_value (name : String) (price : ℚ) (quantity : ℤ)
    (h1 : name ≠ "") (h2 : 0 ≤ price) (h3 : 0 ≤ quantity) :
    mkProduct name price (quantity : ℚ) = .ok ⟨name, price, quantity⟩ ∧
    calculate_value ⟨name, price, quantity⟩ = price * (quantity : ℚ) := by
  constructor
  · unfold mkProduct
    have hcond : ¬(price < 0 ∨ (quantity : ℚ) < 0) := by
      push_neg
      exact ⟨h2, by exact_mod_cast h3⟩
    rw [if_neg h1, if_neg hcond, ratTrunc_intCast]
  · rfl

theorem claim2_witness :
    (("Apple" : String) ≠ "" ∧ (0 : ℚ) ≤ 2 ∧ (0 : ℤ) ≤ 3) ∧
    (mkProduct "Apple" 2 ((3 : ℤ) : ℚ) = .ok ⟨"Apple", 2, 3⟩ ∧
      calculate_value ⟨"Apple", 2, 3⟩ = 2 * ((3 : ℤ) : ℚ)) :=
  ⟨⟨by decide, by decide, by decide⟩,
   claim2_valid_construction_value "Apple" 2 3 (by decide) (by decide) (by decide)⟩

/-- C3: upserting two products with the same name in sequence leaves exactly
one entry under that name, holding the second product, and the second upsert
does not change the collection size. -/
theorem claim3_last_write_wins (m : Inv) (p1 p2 : Product)
    (hname : p1.name = p2.name) (hm : NoDupKeys m) :
    countKey p2.name (add_or_update_product (add_or_update_product m p1) p2) = 1 ∧
    get_product (add_or_update_product (add_or_update_product m p1) p2) p2.name = some p2 ∧
    (add_or_update_product (add_or_update_product m p1) p2).length =
      (add_or_update_product m p1).length := by
  have hm1 : NoDupKeys (add_or_update_product m p1) := noDupKeys_dictInsert _ _ hm
  refine ⟨countKey_dictInsert _ _ hm1, dictGet_dictInsert_self _ _ _, ?_⟩
  apply length_dictInsert_of_hasKey
  rw [← hname]
  exact hasKey_dictInsert p1.name p1 m

theorem claim3_witness :
    ((⟨"B", 1, 1⟩ : Product).name = (⟨"B", 2, 2⟩ : Product).name ∧
      NoDupKeys [("A", ⟨"A", 1, 1⟩)]) ∧
    (countKey (Product.name ⟨"B", 2, 2⟩)
        (add_or_update_product
          (add_or_update_product [("A", ⟨"A", 1, 1⟩)] ⟨"B", 1, 1⟩) ⟨"B", 2, 2⟩) = 1 ∧
      get_product
          (add_or_update_product
            (add_or_update_product [("A", ⟨"A", 1, 1⟩)] ⟨"B", 1, 1⟩) ⟨"B", 2, 2⟩)
          (Product.name ⟨"B", 2, 2⟩) = some ⟨"B", 2, 2⟩ ∧
      (add_or_update_product
          (add_or_update_product [("A", ⟨"A", 1, 1⟩)] ⟨"B", 1, 1⟩) ⟨"B", 2, 2⟩).length =
        (add_or_update_product [("A", ⟨"A", 1, 1⟩)] ⟨"B", 1, 1⟩).length) :=
  ⟨⟨rfl, by decide⟩,
   claim3_last_write_wins [("A", ⟨"A", 1, 1⟩)] ⟨"B", 1, 1⟩ ⟨"B", 2, 2⟩ rfl (by decide)⟩

/-- C4: the total inventory value is 0 on the empty collection, equals the
sum of `calculate_value` over all stored products in every state, and equals
11 after upserting A(price 2, quantity 3) and B(price 5, quantity 1) into the
empty collection. -/
theorem claim4_total_value :
    calculate_total_inventory_value emptyInventory = 0 ∧
    (∀ m : Inv,
      calculate_total_inventory_value m = ((m.map Prod.snd).map calculate_value).sum) ∧
    calculate_total_inventory_value
      (add_or_update_product (add_or_update_product emptyInventory ⟨"A", 2, 3⟩)
        ⟨"B", 5, 1⟩) = 11 := by
  refine ⟨rfl, fun m => ?_, ?_⟩
  · unfold calculate_total_inventory_value
    rw [foldl_add_calculate_value, zero_add]
  · simp [calculate_total_inventory_value, add_or_update_product, dictInsert,
      emptyInventory, calculate_value]
    norm_num

/-- C5: the display snapshot contains exactly one row per stored product
(name, price, quantity, derived value) sorted by name ascending; inserting
"Banana" then "Apple" yields the row order ["Apple", "Banana"]. -/
theorem claim5_snapshot_sorted :
    (∀ m : Inv,
      (get_inventory_dataframe m).Perm ((m.map Prod.snd).map toRow) ∧
      List.Sorted rowLE (get_inventory_dataframe m)) ∧
    (get_inventory_dataframe
        (add_or_update_product (add_or_update_product emptyInventory ⟨"Banana", 1, 1⟩)
          ⟨"Apple", 2, 2⟩)).map Row.product_name = ["Apple", "Banana"] := by
  constructor
  · intro m
    exact ⟨List.perm_insertionSort rowLE _, List.sorted_insertionSort rowLE _⟩
  · simp only [get_inventory_dataframe, add_or_update_product, dictInsert, toRow,
      emptyInventory, List.insertionSort, List.orderedInsert, rowLE]
    norm_num
    rw [if_neg (by decide)]
    simp

/-- C6: after upserting a product, looking its name up returns exactly that
product; looking up a name present in no entry returns `none`. -/
theorem claim6_get_after_upsert (m : Inv) (p : Product) (name : String)
    (habs : ∀ kv ∈ m, kv.1 ≠ name) :
    get_product (add_or_update_product m p) p.name = some p ∧
    get_product m name = none :=
  ⟨dictGet_dictInsert_self _ _ _, dictGet_eq_none_of_not_mem habs⟩

theorem claim6_witness :
    (∀ kv ∈ [("A", (⟨"A", 1, 1⟩ : Product))], kv.1 ≠ "C") ∧
    (get_product (add_or_update_product [("A", ⟨"A", 1, 1⟩)] ⟨"B", 2, 2⟩)
        (Product.name ⟨"B", 2, 2⟩) = some ⟨"B", 2, 2⟩ ∧
      get_product [("A", ⟨"A", 1, 1⟩)] "C" = none) :=
  ⟨by decide, claim6_get_after_upsert [("A", ⟨"A", 1, 1⟩)] ⟨"B", 2, 2⟩ "C" (by decide)⟩

/-- C7: every state reachable from the empty collection by upserting
successfully constructed products has at most one entry per name and only
stores products satisfying the record invariant. -/
theorem claim7_reachable_invariant (m : Inv) (h : Reachable m) :
    NoDupKeys m ∧ ∀ kv ∈ m, ValidProduct kv.2 := by
  induction h with
  | empty =>
    constructor
    · unfold NoDupKeys emptyInventory
      simp
    · intro kv hmem
      simp [emptyInventory] at hmem
  | step n pr q hr hok ih =>
    refine ⟨noDupKeys_dictInsert _ _ ih.1, ?_⟩
    intro kv hmem
    rcases mem_dictInsert hmem with heq | hmem2
    · rw [heq]
      exact mkProduct_valid hok
    · exact ih.2 kv hmem2

theorem claim7_witness :
    Reachable (add_or_update_product emptyInventory ⟨"A", 1, 1⟩) ∧
    (NoDupKeys (add_or_update_product emptyInventory ⟨"A", 1, 1⟩) ∧
      ∀ kv ∈ add_or_update_product emptyInventory ⟨"A", 1, 1⟩, ValidProduct kv.2) :=
  have hreach : Reachable (add_or_update_product emptyInventory ⟨"A", 1, 1⟩) :=
    Reachable.step "A" 1 1 Reachable.empty rfl
  ⟨hreach, claim7_reachable_invariant _ hreach⟩

/-- C8: lookup, total-value computation and the display snapshot leave the
collection state exactly as it was. -/
theorem claim8_readers_pure (m : Inv) (name : String) :
    (get_product_run m name).2 = m ∧
    (calculate_total_inventory_value_run m).2 = m ∧
    (get_inventory_dataframe_run m).2 = m :=
  ⟨rfl, rfl, rfl⟩

/-- C9: a submission whose product construction fails validation leaves the
collection unchanged: the handler catches the error before any upsert. -/
theorem claim9_failed_submission_unchanged (m : Inv) (name : String)
    (price quantity : ℚ) (e : ValidationError)
    (h : mkProduct name price quantity = .error e) :
    (handle_submission m name price quantity).1 = m := by
  unfold handle_submission
  by_cases h1 : name = ""
  · rw [if_pos h1]
  · rw [if_neg h1, h]

theorem claim9_witness :
    mkProduct "A" (-1) 1 = .error .negativeValue ∧
    (handle_submission emptyInventory "A" (-1) 1).1 = emptyInventory :=
  ⟨rfl, claim9_failed_submission_unchanged emptyInventory "A" (-1) 1 .negativeValue rfl⟩

/-- C10: with a non-empty name, non-negative price and non-negative raw
quantity — integer or not — construction succeeds; the stored price is the
(coerced) price and the stored quantity is the raw quantity truncated toward
zero, i.e. the unique integer z with z ≤ quantity < z + 1. -/
theorem claim10_quantity_truncation (name : String) (price q : ℚ)
    (h1 : name ≠ "") (h2 : 0 ≤ price) (h3 : 0 ≤ q) :
    mkProduct name price q = .ok ⟨name, price, ⌊q⌋⟩ ∧
    ((⌊q⌋ : ℚ) ≤ q ∧ q < ⌊q⌋ + 1) := by
  constructor
  · unfold mkProduct
    have hcond : ¬(price < 0 ∨ q < 0) := by
      push_neg
      exact ⟨h2, h3⟩
    rw [if_neg h1, if_neg hcond, ratTrunc_of_nonneg h3]
  · exact ⟨Int.floor_le q, Int.lt_floor_add_one q⟩

theorem claim10_witness :
    (("Apple" : String) ≠ "" ∧ (0 : ℚ) ≤ 2 ∧ (0 : ℚ) ≤ 1 / 2) ∧
    (mkProduct "Apple" 2 (1 / 2) = .ok ⟨"Apple", 2, ⌊(1 / 2 : ℚ)⌋⟩ ∧
      ((⌊(1 / 2 : ℚ)⌋ : ℚ) ≤ 1 / 2 ∧ (1 / 2 : ℚ) < ⌊(1 / 2 : ℚ)⌋ + 1)) :=
  ⟨⟨by decide, by decide, by norm_num⟩,
   claim10_quantity_truncation "Apple" 2 (1 / 2) (by decide) (by decide) (by norm_num)⟩

end Inventory
